import Mathlib

/-!
Verification development for the VIKTOR / Autodesk AEC Data Model application
(`src/app.py`).  The Python source is shallowly embedded below: JSON objects
become structures with `Option` fields (absent key / JSON `null` ↦ `none`,
with the source's `.get` defaults applied via `Option.getD`), the imperative
pagination loops become fuel-indexed recursive functions over a stream of API
responses, and Python dicts become association lists with replace-on-insert.
-/

/-- Python truthiness of an optional string (`not new_cursor` in the source):
`None` and the empty string are falsy. -/
def pyStrFalsy : Option String → Bool
  | none => true
  | some s => s = ""

/-- One page of an `elementsByElementGroup` response, after the source's
unwrapping (`data.get("elementsByElementGroup", {}) or {}`,
`block.get("results", []) or []`, `block.get("pagination", {}) or {}`,
`page.get("cursor")`): an optional cursor and the list of results.
`α` is the shape of one element of the page. -/
structure Page (α : Type) where
  cursor : Option String
  results : List α
deriving DecidableEq, Repr

/-- The loop-exit test of both pagination loops in the source
(`view_family_instances` and `view_colored_categories`):
`if not new_cursor or new_cursor == cursor or len(page_results) == 0: break`,
where `cursor` is the cursor the current iteration was entered with. -/
def stopCond {α : Type} (cursor : Option String) (p : Page α) : Bool :=
  pyStrFalsy p.cursor || decide (p.cursor = cursor) || p.results.isEmpty

/-- The `pagination` variables object sent with a request. `cursor = none`
models the `{"limit": limit}` dict without a `"cursor"` key. -/
structure PaginationInput where
  cursor : Option String
  limit : Nat
deriving DecidableEq, Repr

/-- The source's request construction:
`{"limit": limit} if not cursor else {"cursor": cursor, "limit": limit}`. -/
def requestVars (cursor : Option String) (limit : Nat) : PaginationInput :=
  if pyStrFalsy cursor then ⟨none, limit⟩ else ⟨cursor, limit⟩

/-- The pagination loop of the source, abstracted over what is done with each
page.  `responses n` is the page the API returns to the `n`-th request of this
loop (the source is a client; the API is modelled as an arbitrary response
stream).  The result is the trace of the loop: for every iteration, the pair
(cursor the iteration was entered with, page it received); `none` means the
fuel ran out before the loop's own exit test fired, i.e. the loop has not
terminated within `fuel` iterations. -/
def fetchLoop {α : Type} (responses : Nat → Page α) :
    Nat → Option String → Nat → Option (List (Option String × Page α))
  | 0, _, _ => none
  | fuel + 1, cursor, idx =>
    let p := responses idx
    if stopCond cursor p then some [(cursor, p)]
    else (fetchLoop responses fuel p.cursor (idx + 1)).map (fun rest => (cursor, p) :: rest)

/-- The cursor the loop holds when it issues request `idx + j`, having entered
request `idx` holding cursor `c` (and not having stopped in between). -/
def cFrom {α : Type} (responses : Nat → Page α) (c : Option String) (idx : Nat) :
    Nat → Option String
  | 0 => c
  | j + 1 => (responses (idx + j)).cursor

/-- The cursor the loop holds at its `n`-th iteration when started as in the
source (`cursor = None`, first request): `none` at first, afterwards the
cursor returned by the previous page. -/
def curAt {α : Type} (responses : Nat → Page α) (n : Nat) : Option String :=
  cFrom responses none 0 n

/-- Whether the loop's exit test fires at its `n`-th iteration. -/
def stopAt {α : Type} (responses : Nat → Page α) (n : Nat) : Bool :=
  stopCond (curAt responses n) (responses n)

/-- Termination of the pagination loop on a given response stream: some finite
amount of fuel suffices for the loop's own exit test to fire. -/
def paginationTerminates {α : Type} (responses : Nat → Page α) : Prop :=
  ∃ fuel, (fetchLoop responses fuel none 0).isSome

theorem cFrom_succ {α : Type} (responses : Nat → Page α) (c : Option String)
    (idx : Nat) : ∀ j, cFrom responses c idx (j + 1) =
      cFrom responses (responses idx).cursor (idx + 1) j := by
  intro j
  cases j with
  | zero => simp [cFrom]
  | succ i =>
    show (responses (idx + (i + 1))).cursor = (responses (idx + 1 + i)).cursor
    have h : idx + (i + 1) = idx + 1 + i := by omega
    rw [h]

theorem fetchLoop_isSome_iff {α : Type} (responses : Nat → Page α) :
    ∀ (fuel : Nat) (c : Option String) (idx : Nat),
      (fetchLoop responses fuel c idx).isSome = true ↔
        ∃ j, j < fuel ∧ stopCond (cFrom responses c idx j) (responses (idx + j)) = true := by
  intro fuel
  induction fuel with
  | zero =>
    intro c idx
    simp [fetchLoop]
  | succ fuel ih =>
    intro c idx
    by_cases hstop : stopCond c (responses idx) = true
    · constructor
      · intro _
        exact ⟨0, Nat.succ_pos fuel, by simpa [cFrom] using hstop⟩
      · intro _
        simp [fetchLoop, hstop]
    · have hstop2 : stopCond c (responses idx) = false := by
        simpa using hstop
      constructor
      · intro h
        have h2 : (fetchLoop responses fuel (responses idx).cursor (idx + 1)).isSome = true := by
          simpa [fetchLoop, hstop2, Option.isSome_map] using h
        obtain ⟨j, hj, hs⟩ := (ih (responses idx).cursor (idx + 1)).mp h2
        refine ⟨j + 1, by omega, ?_⟩
        rw [cFrom_succ]
        have h3 : idx + (j + 1) = idx + 1 + j := by omega
        rw [h3]
        exact hs
      · rintro ⟨j, hj, hs⟩
        cases j with
        | zero =>
          exfalso
          rw [show idx + 0 = idx from rfl] at hs
          simp [cFrom] at hs
          rw [hs] at hstop2
          simp at hstop2
        | succ i =>
          rw [cFrom_succ] at hs
          have h3 : idx + (i + 1) = idx + 1 + i := by omega
          rw [h3] at hs
          have h2 : (fetchLoop responses fuel (responses idx).cursor (idx + 1)).isSome = true :=
            (ih (responses idx).cursor (idx + 1)).mpr ⟨i, by omega, hs⟩
          simpa [fetchLoop, hstop2, Option.isSome_map] using h2

theorem paginationTerminates_iff {α : Type} (responses : Nat → Page α) :
    paginationTerminates responses ↔ ∃ n, stopAt responses n = true := by
  constructor
  · rintro ⟨fuel, h⟩
    obtain ⟨j, _, hs⟩ := (fetchLoop_isSome_iff responses fuel none 0).mp h
    exact ⟨j, by simpa [stopAt, curAt] using hs⟩
  · rintro ⟨n, h⟩
    refine ⟨n + 1, (fetchLoop_isSome_iff responses (n + 1) none 0).mpr ?_⟩
    exact ⟨n, by omega, by simpa [stopAt, curAt] using h⟩

/-- One entry of an element's `properties.results` list in the
`FamilyInstances` query response: `{name, value}`. -/
structure ElemProp where
  name : Option String
  value : Option String
deriving DecidableEq, Repr

/-- The `properties` block of an element (`{results: [...]}`). -/
structure PropsBlock where
  results : Option (List ElemProp)
deriving DecidableEq, Repr

/-- One element of a `FamilyInstances` page: `{id, name, properties}` (the
`id` field is never read by the source, so it is omitted). -/
structure Element where
  name : Option String
  properties : Option PropsBlock
deriving DecidableEq, Repr

/-- One row appended to `all_instances` in `view_family_instances`. -/
structure Record where
  category : String
  family_name : String
  type_name : String
  element_name : String
deriving DecidableEq, Repr

/-- `element.get("properties", {}).get("results", []) or []`. -/
def elementProps (e : Element) : List ElemProp :=
  ((e.properties.getD ⟨none⟩).results).getD []

/-- The body of the source's `for prop in properties` loop: the running pair
(family_name, type_name) updated by one property.
`prop_name = prop.get("name", "")`, `prop_value = prop.get("value", "")`;
on a "Family Name" / "Type Name" property the corresponding component is
overwritten with `prop_value if prop_value else "Unknown"`. -/
def propStep (fntn : String × String) (p : ElemProp) : String × String :=
  let prop_name := p.name.getD ""
  let prop_value := p.value.getD ""
  if prop_name = "Family Name" then
    (if prop_value ≠ "" then prop_value else "Unknown", fntn.2)
  else if prop_name = "Type Name" then
    (fntn.1, if prop_value ≠ "" then prop_value else "Unknown")
  else fntn

/-- The per-element processing of `view_family_instances` (lines 220-246):
`element_name = element.get("name", "Unknown")`, the properties loop starting
from `("Unknown", "Unknown")`, and the appended row. -/
def processElement (category : String) (e : Element) : Record :=
  let element_name := e.name.getD "Unknown"
  let props := elementProps e
  let fntn := props.foldl propStep ("Unknown", "Unknown")
  ⟨category, fntn.1, fntn.2, element_name⟩

/-- The per-category pagination-and-aggregation loop of
`view_family_instances`: each iteration fetches a page, appends the processed
rows of the page to the shared `all_instances` accumulator, then runs the
exit test.  `none` means the fuel ran out before the loop stopped. -/
def collectInstances (responses : Nat → Page Element) (category : String) :
    Nat → Option String → Nat → List Record → Option (List Record)
  | 0, _, _, _ => none
  | fuel + 1, cursor, idx, acc =>
    let p := responses idx
    let acc2 := acc ++ p.results.map (processElement category)
    if stopCond cursor p then some acc2
    else collectInstances responses category fuel p.cursor (idx + 1) acc2

/-- The outer `for category in categories` loop of `view_family_instances`:
one pagination loop per category name, all appending into the shared
`all_instances` list.  `api i n` is the page returned to the `n`-th request
issued for the `i`-th category. -/
def collectAllInstances (api : Nat → Nat → Page Element) (fuel : Nat) :
    List String → Nat → List Record → Option (List Record)
  | [], _, acc => some acc
  | category :: rest, catIdx, acc =>
    match collectInstances (api catIdx) category fuel none 0 acc with
    | none => none
    | some acc2 => collectAllInstances api fuel rest (catIdx + 1) acc2

/-- Statement-side companion of `collectAllInstances`: the traces of the
per-category pagination loops, paired with their category names. -/
def categoryTraces (api : Nat → Nat → Page Element) (fuel : Nat) :
    List String → Nat → Option (List (String × List (Option String × Page Element)))
  | [], _ => some []
  | category :: rest, catIdx =>
    match fetchLoop (api catIdx) fuel none 0 with
    | none => none
    | some l => (categoryTraces api fuel rest (catIdx + 1)).map (fun ts => (category, l) :: ts)

/-- The fixed category list sent to the GraphQL queries by
`view_family_instances`. -/
def familyInstanceCategories : List String :=
  ["Structural Framing", "Structural Columns", "Walls", "Floors", "Doors", "Windows"]

/-- The rows contributed by one fetched page of a trace. -/
def pageRecords (category : String) (cp : Option String × Page Element) : List Record :=
  cp.2.results.map (processElement category)

theorem collectInstances_eq_fetchLoop (responses : Nat → Page Element) (category : String) :
    ∀ (fuel : Nat) (cursor : Option String) (idx : Nat) (acc : List Record),
      collectInstances responses category fuel cursor idx acc =
        (fetchLoop responses fuel cursor idx).map
          (fun l => acc ++ (l.map (pageRecords category)).flatten) := by
  intro fuel
  induction fuel with
  | zero => intro cursor idx acc; rfl
  | succ fuel ih =>
    intro cursor idx acc
    by_cases hstop : stopCond cursor (responses idx) = true
    · simp [collectInstances, fetchLoop, hstop, pageRecords]
    · have hstop2 : stopCond cursor (responses idx) = false := by simpa using hstop
      rw [collectInstances, fetchLoop]
      simp only [hstop2, Bool.false_eq_true, if_false]
      rw [ih]
      cases h : fetchLoop responses fuel (responses idx).cursor (idx + 1) with
      | none => rfl
      | some l =>
        simp [pageRecords, List.append_assoc]

theorem collectAllInstances_eq_traces (api : Nat → Nat → Page Element) (fuel : Nat) :
    ∀ (cats : List String) (catIdx : Nat) (acc : List Record),
      collectAllInstances api fuel cats catIdx acc =
        (categoryTraces api fuel cats catIdx).map
          (fun ts => acc ++ (ts.map (fun ct => (ct.2.map (pageRecords ct.1)).flatten)).flatten) := by
  intro cats
  induction cats with
  | nil => intro catIdx acc; simp [collectAllInstances, categoryTraces]
  | cons category rest ih =>
    intro catIdx acc
    rw [collectAllInstances, categoryTraces,
      collectInstances_eq_fetchLoop (api catIdx) category fuel none 0 acc]
    cases h : fetchLoop (api catIdx) fuel none 0 with
    | none => rfl
    | some l =>
      show collectAllInstances api fuel rest (catIdx + 1)
          (acc ++ (l.map (pageRecords category)).flatten) = _
      rw [ih]
      cases h2 : categoryTraces api fuel rest (catIdx + 1) with
      | none => rfl
      | some ts => simp [List.append_assoc]

/-- Shape of a terminating pagination trace: it begins at the state the loop
was entered with, every iteration except the last fails the exit test and
hands the returned cursor to the next iteration, and the last iteration
passes the exit test. -/
theorem fetchLoop_trace_shape {α : Type} (responses : Nat → Page α) :
    ∀ (fuel : Nat) (c : Option String) (idx : Nat) (l : List (Option String × Page α)),
      fetchLoop responses fuel c idx = some l →
        l.head? = some (c, responses idx) ∧
        List.Chain' (fun e1 e2 => stopCond e1.1 e1.2 = false ∧ e2.1 = e1.2.cursor) l ∧
        (∀ e, l.getLast? = some e → stopCond e.1 e.2 = true) := by
  intro fuel
  induction fuel with
  | zero => intro c idx l h; exact absurd h (by simp [fetchLoop])
  | succ fuel ih =>
    intro c idx l h
    by_cases hstop : stopCond c (responses idx) = true
    · rw [fetchLoop] at h
      simp only [hstop, if_true] at h
      cases h
      refine ⟨rfl, List.chain'_singleton _, ?_⟩
      intro e he
      simp only [List.getLast?_singleton, Option.some.injEq] at he
      rw [← he]
      exact hstop
    · have hstop2 : stopCond c (responses idx) = false := by simpa using hstop
      rw [fetchLoop] at h
      simp only [hstop2, Bool.false_eq_true, if_false] at h
      cases h2 : fetchLoop responses fuel (responses idx).cursor (idx + 1) with
      | none => rw [h2] at h; exact Option.noConfusion h
      | some l2 =>
        rw [h2] at h
        have h3 : (c, responses idx) :: l2 = l := Option.some.inj h
        obtain ⟨hhead, hchain, hlast⟩ := ih (responses idx).cursor (idx + 1) l2 h2
        cases h3
        refine ⟨rfl, ?_, ?_⟩
        · rw [List.chain'_cons']
          refine ⟨?_, hchain⟩
          intro y hy
          rw [hhead] at hy
          simp only [Option.mem_def, Option.some.injEq] at hy
          rw [← hy]
          exact ⟨hstop2, rfl⟩
        · intro e he
          cases l2 with
          | nil => simp at hhead
          | cons h2h h2t =>
            rw [List.getLast?_cons_cons] at he
            exact hlast e he

/-- A Python dict from category name to count, as an association list without
duplicate keys.  `dictInsert` models `d[k] = v`: if the key exists its value
is replaced in place, otherwise the pair is appended. -/
def dictInsert (d : List (String × Nat)) (k : String) (v : Nat) : List (String × Nat) :=
  match d with
  | [] => [(k, v)]
  | (k2, v2) :: rest => if k2 = k then (k, v) :: rest else (k2, v2) :: dictInsert rest k v

/-- `d.get(k, default)` on the association list. -/
def dictGet (d : List (String × Nat)) (k : String) (default : Nat) : Nat :=
  match d with
  | [] => default
  | (k2, v2) :: rest => if k2 = k then v2 else dictGet rest k default

/-- `k in d` on the association list. -/
def hasKey (d : List (String × Nat)) (k : String) : Bool :=
  d.any (fun p => p.1 = k)

theorem dictGet_dictInsert (d : List (String × Nat)) (k : String) (v : Nat)
    (k2 : String) (default : Nat) :
    dictGet (dictInsert d k v) k2 default = if k = k2 then v else dictGet d k2 default := by
  induction d with
  | nil => by_cases h : k = k2 <;> simp [dictInsert, dictGet, h]
  | cons p rest ih =>
    obtain ⟨pk, pv⟩ := p
    by_cases h1 : pk = k <;> by_cases h2 : k = k2
    · subst h1; subst h2; simp [dictInsert, dictGet]
    · subst h1; simp [dictInsert, dictGet, h2]
    · subst h2; simp [dictInsert, dictGet, h1, ih]
    · simp [dictInsert, dictGet, h1, h2, ih]

theorem hasKey_dictInsert (d : List (String × Nat)) (k : String) (v : Nat) (k2 : String) :
    hasKey (dictInsert d k v) k2 = true ↔ (k = k2 ∨ hasKey d k2 = true) := by
  induction d with
  | nil => simp [dictInsert, hasKey]
  | cons p rest ih =>
    obtain ⟨pk, pv⟩ := p
    by_cases h1 : pk = k
    · subst h1
      simp [dictInsert, hasKey]
    · simp only [dictInsert, h1, if_false]
      by_cases h2 : pk = k2
      · simp [hasKey, h2]
      · simp only [hasKey, List.any_cons] at ih ⊢
        simp [h2, ih]

/-- One `{value, count}` entry of the `UsedCategories` aggregate-query
response. -/
structure AggValue where
  value : Option String
  count : Option Nat
deriving DecidableEq, Repr

/-- One entry of the aggregate response's `results` list (`{values: [...]}`,
where `r.get("values") or []` guards a missing/null list). -/
structure AggResult where
  values : Option (List AggValue)
deriving DecidableEq, Repr

/-- The `distinctPropertyValuesInElementGroupByName` block of the aggregate
response (`block.get("results") or []`). -/
structure AggResponse where
  results : Option (List AggResult)
deriving DecidableEq, Repr

/-- The body of the source's `for v in values` loop:
`category_name = v.get("value", "")`, `element_count = v.get("count", 0)`,
`if category_name: model_category_counts[category_name] = element_count`. -/
def countStep (d : List (String × Nat)) (v : AggValue) : List (String × Nat) :=
  let category_name := v.value.getD ""
  let element_count := v.count.getD 0
  if category_name ≠ "" then dictInsert d category_name element_count else d

/-- `model_category_counts`, built by `view_category_summary`,
`view_category_data` and `download_category_report` from the single
aggregate-query response of the invocation (lines 374-381, 799-807,
1014-1022 of the source, which are identical). -/
def model_category_counts (resp : AggResponse) : List (String × Nat) :=
  (resp.results.getD []).foldl (fun d r => (r.values.getD []).foldl countStep d) []

/-- Statement-side helper: all `{value, count}` entries of the aggregate
response, flattened in response order. -/
def flatEntries (resp : AggResponse) : List AggValue :=
  ((resp.results.getD []).map (fun r => r.values.getD [])).flatten

/-- One row of the `required_categories` dynamic array: a category name and a
display color (modelled as its hex string, the only form the source uses). -/
structure RequiredRow where
  category : String
  color : String
deriving DecidableEq, Repr

/-- `set(row["category"] for row in params.required_categories)`: the source
only ever tests membership in this set, so it is modelled by the list of
declared names with list membership. -/
def required_categories (rows : List RequiredRow) : List String :=
  rows.map (fun r => r.category)

/-- The fixed 20-entry master category list (`all_categories` in the source,
identical to the dropdown options). -/
def all_categories : List String :=
  ["Structural Framing", "Structural Columns", "Structural Foundations", "Walls",
   "Floors", "Roofs", "Ceilings", "Doors", "Windows", "Stairs", "Railings",
   "Curtain Panels", "Curtain Wall Mullions", "Furniture", "Mechanical Equipment",
   "Plumbing Fixtures", "Lighting Fixtures", "Electrical Equipment", "Ducts", "Pipes"]

/-- The four-way classification produced by the `if/elif` chains of
`view_category_summary` (lines 399-414), `view_category_data` (856-899) and
`download_category_report` (1085-1100). -/
inductive CatStatus where
  | presentBoth
  | contractNotModel
  | modelNotContract
  | neither
deriving DecidableEq, Repr

/-- The per-category classification chain shared by the three reconciliation
views: `element_count = model_category_counts.get(category_name, 0)`,
`in_model = element_count > 0`,
`in_contract = category_name in required_categories`, then the `if/elif`
ladder on the two booleans. -/
def classifyCategory (required : List String) (counts : List (String × Nat))
    (category_name : String) : CatStatus :=
  let element_count := dictGet counts category_name 0
  let in_model : Bool := decide (element_count > 0)
  let in_contract : Bool := required.contains category_name
  if in_contract && in_model then .presentBoth
  else if in_contract && !in_model then .contractNotModel
  else if !in_contract && in_model then .modelNotContract
  else .neither

/-- Modelled from the spec: the four-row classification table of the
specification ("Category reconciliation classification"), as a function of
the pair `(in_contract, in_model)`. -/
def specStatusTable : Bool → Bool → CatStatus
  | true, true => .presentBoth
  | true, false => .contractNotModel
  | false, true => .modelNotContract
  | false, false => .neither

/-- One row of the `view_category_summary` table, reduced to the data the
reconciliation produces (category, classification, element count); the
status symbol, colour and description text are presentation constants
determined by the classification. -/
structure SummaryRow where
  category : String
  status : CatStatus
  element_count : Nat
deriving DecidableEq, Repr

/-- The table built by `view_category_summary` (lines 388-421): one row per
master-list category, classified against the declared categories and the
counts of the invocation's single aggregate response. -/
def categorySummaryTable (rows : List RequiredRow) (resp : AggResponse) : List SummaryRow :=
  let counts := model_category_counts resp
  let required := required_categories rows
  all_categories.map (fun category_name =>
    ⟨category_name, classifyCategory required counts category_name,
      dictGet counts category_name 0⟩)

theorem foldl_countStep_flatten (L : List AggResult) :
    ∀ d, L.foldl (fun d r => (r.values.getD []).foldl countStep d) d =
      ((L.map (fun r => r.values.getD [])).flatten).foldl countStep d := by
  induction L with
  | nil => intro d; rfl
  | cons r rest ih =>
    intro d
    simp only [List.foldl_cons, List.map_cons, List.flatten_cons, List.foldl_append]
    exact ih _

theorem model_category_counts_eq_flat (resp : AggResponse) :
    model_category_counts resp = (flatEntries resp).foldl countStep [] :=
  foldl_countStep_flatten (resp.results.getD []) []

theorem dictGet_foldl_countStep (name : String) (hname : name ≠ "") (entries : List AggValue) :
    ∀ d, dictGet (entries.foldl countStep d) name 0 =
      (((entries.filter (fun v => v.value.getD "" == name)).getLast?).map
        (fun v => v.count.getD 0)).getD (dictGet d name 0) := by
  induction entries using List.reverseRecOn with
  | nil => intro d; rfl
  | append_singleton es v ih =>
    intro d
    rw [List.foldl_append, List.foldl_cons, List.foldl_nil, List.filter_append]
    by_cases hv : v.value.getD "" = name
    · have hfil : List.filter (fun v => v.value.getD "" == name) [v] = [v] := by
        simp [List.filter, hv]
      rw [hfil, List.getLast?_concat]
      show dictGet (countStep (es.foldl countStep d) v) name 0 = v.count.getD 0
      rw [countStep]
      simp only [hv, if_pos hname, hname]
      simp [dictGet_dictInsert]
    · have hbeq : (v.value.getD "" == name) = false := beq_eq_false_iff_ne.mpr hv
      have hfil : List.filter (fun v => v.value.getD "" == name) [v] = [] := by
        simp [List.filter, hbeq]
      rw [hfil, List.append_nil]
      show dictGet (countStep (es.foldl countStep d) v) name 0 = _
      rw [countStep]
      by_cases hv2 : v.value.getD "" = ""
      · simp only [hv2, ne_eq, not_true_eq_false, if_false]
        exact ih d
      · simp only [ne_eq, hv2, not_false_eq_true, if_true]
        rw [dictGet_dictInsert]
        simp only [hv, if_false]
        exact ih d

theorem hasKey_foldl_countStep (name : String) (entries : List AggValue) :
    ∀ d, hasKey (entries.foldl countStep d) name = true ↔
      (hasKey d name = true ∨ (name ≠ "" ∧ ∃ v ∈ entries, v.value.getD "" = name)) := by
  induction entries with
  | nil => intro d; simp
  | cons v rest ih =>
    intro d
    rw [List.foldl_cons, ih]
    constructor
    · rintro (hd | hrest)
      · rw [countStep] at hd
        by_cases hv2 : v.value.getD "" = ""
        · simp only [hv2, ne_eq, not_true_eq_false, if_false] at hd
          exact Or.inl hd
        · simp only [ne_eq, hv2, not_false_eq_true, if_true] at hd
          rcases (hasKey_dictInsert d _ _ name).mp hd with heq | hd2
          · exact Or.inr ⟨fun h0 => hv2 (heq.trans h0), v, List.mem_cons_self v rest, heq⟩
          · exact Or.inl hd2
      · obtain ⟨h0, w, hw, hweq⟩ := hrest
        exact Or.inr ⟨h0, w, List.mem_cons_of_mem v hw, hweq⟩
    · rintro (hd | ⟨h0, w, hw, hweq⟩)
      · left
        rw [countStep]
        by_cases hv2 : v.value.getD "" = ""
        · simpa [hv2] using hd
        · simp only [ne_eq, hv2, not_false_eq_true, if_true]
          exact (hasKey_dictInsert d _ _ name).mpr (Or.inr hd)
      · rcases List.mem_cons.mp hw with hw1 | hw2
        · left
          subst hw1
          rw [countStep]
          have hv2 : ¬ w.value.getD "" = "" := by rw [hweq]; exact h0
          simp only [ne_eq, hv2, not_false_eq_true, if_true]
          exact (hasKey_dictInsert d _ _ name).mpr (Or.inl hweq)
        · exact Or.inr ⟨h0, w, hw2, hweq⟩

/-- Statement-side helper: the value the properties loop leaves in its
running variable for property `propName` — the value of the last property
with that name (the empty value replaced by "Unknown"), or `fallback` if no
property has that name. -/
def lastPropValueOr (propName : String) (props : List ElemProp) (fallback : String) : String :=
  (((props.filter (fun p => p.name.getD "" == propName)).getLast?).map
    (fun p => if p.value.getD "" ≠ "" then p.value.getD "" else "Unknown")).getD fallback

theorem foldl_propStep_eq (props : List ElemProp) :
    ∀ init : String × String,
      props.foldl propStep init =
        (lastPropValueOr "Family Name" props init.1,
         lastPropValueOr "Type Name" props init.2) := by
  induction props using List.reverseRecOn with
  | nil => intro init; rfl
  | append_singleton es p ih =>
    intro init
    rw [List.foldl_append, List.foldl_cons, List.foldl_nil, ih]
    rw [propStep]
    by_cases hf : p.name.getD "" = "Family Name"
    · have hb1 : (p.name.getD "" == "Family Name") = true := beq_iff_eq.mpr hf
      have hb2 : (p.name.getD "" == "Type Name") = false := by
        refine beq_eq_false_iff_ne.mpr ?_
        rw [hf]
        decide
      simp only [hf, if_true]
      unfold lastPropValueOr
      rw [List.filter_append, List.filter_append]
      simp [List.filter, hb1, hb2, List.getLast?_concat]
    · have hb1 : (p.name.getD "" == "Family Name") = false := beq_eq_false_iff_ne.mpr hf
      by_cases ht : p.name.getD "" = "Type Name"
      · have hb2 : (p.name.getD "" == "Type Name") = true := beq_iff_eq.mpr ht
        simp only [hf, if_false, ht, if_true]
        unfold lastPropValueOr
        rw [List.filter_append, List.filter_append]
        simp [List.filter, hb1, hb2, List.getLast?_concat]
      · have hb2 : (p.name.getD "" == "Type Name") = false := beq_eq_false_iff_ne.mpr ht
        simp only [hf, if_false, ht]
        unfold lastPropValueOr
        rw [List.filter_append, List.filter_append]
        simp [List.filter, hb1, hb2]

/-- An HTTP response as `execute_graphql` reads it: the status code, the raw
text, and the parsed JSON body's `errors` and `data` fields.  `α` is the
shape of the `data` field of the query at hand. -/
structure HttpResponse (α : Type) where
  status_code : Nat
  text : String
  errors : Option (List String)
  data : Option α
deriving DecidableEq, Repr

/-- Python truthiness of `body.get("errors")`: a missing/null field and an
empty list are falsy, a non-empty error list is truthy. -/
def pyErrorsTruthy : Option (List String) → Bool
  | none => false
  | some l => !l.isEmpty

/-- The result of `execute_graphql` (`src/app.py` lines 8-41): `.error`
models the raised `RuntimeError`, `.ok` the returned `body.get("data", {})`
(with `emptyData` standing for the `{}` default).  The request construction
(headers, payload, endpoint) only shapes what is sent, not the control flow
modelled here. -/
def execute_graphql {α : Type} (resp : HttpResponse α) (emptyData : α) : Except String α :=
  if resp.status_code ≠ 200 then
    Except.error ("HTTP " ++ toString resp.status_code ++ ": " ++ resp.text)
  else if pyErrorsTruthy resp.errors then
    Except.error ("GraphQL errors: " ++ String.intercalate "; " (resp.errors.getD []))
  else
    Except.ok (resp.data.getD emptyData)

/-- `alternativeIdentifiers` block of a `CategoryElements` query element. -/
structure AltIds where
  externalElementId : Option String
deriving DecidableEq, Repr

/-- One element of a `CategoryElements` page in `view_colored_categories`:
`{id, name, alternativeIdentifiers}` (only the latter is read). -/
structure ColoredElement where
  alternativeIdentifiers : Option AltIds
deriving DecidableEq, Repr

/-- The per-page element loop of `view_colored_categories` (lines 520-528):
`external_id = element.get("alternativeIdentifiers", {}).get("externalElementId")`;
`if external_id: external_ids_with_colors.append({external_id: color_hex})`.
A `{external_id: color_hex}` single-key dict is modelled as the pair. -/
def processColoredPage (color_hex : String) (results : List ColoredElement) :
    List (String × String) :=
  results.foldl (fun acc e =>
    match (e.alternativeIdentifiers.getD ⟨none⟩).externalElementId with
    | some id => if id ≠ "" then acc ++ [(id, color_hex)] else acc
    | none => acc) []

/-- The warning text emitted when a category's query raises
(`vkt.UserMessage.warning` in the source; quotes around the category name
elided). -/
def categoryWarning (category_name msg : String) : String :=
  "Could not fetch elements for category " ++ category_name ++ ": " ++ msg

/-- The pagination loop of `view_colored_categories` for one category
(lines 505-544).  `api n` is the outcome of the `n`-th `execute_graphql`
call of this category: `.error` models a raised exception, which the
source's `try/except` turns into a warning plus `break`, keeping the shared
accumulator.  The result pairs the accumulator after the loop with the list
of warnings the loop emitted; `none` means the fuel ran out. -/
def collectColoredCategory (api : Nat → Except String (Page ColoredElement))
    (category_name color_hex : String) :
    Nat → Option String → Nat → List (String × String) →
      Option (List (String × String) × List String)
  | 0, _, _, _ => none
  | fuel + 1, cursor, idx, acc =>
    match api idx with
    | Except.error msg => some (acc, [categoryWarning category_name msg])
    | Except.ok p =>
      let acc2 := acc ++ processColoredPage color_hex p.results
      if stopCond cursor p then some (acc2, [])
      else collectColoredCategory api category_name color_hex fuel p.cursor (idx + 1) acc2

/-- The outer `for row in params.required_categories` loop of
`view_colored_categories`: one pagination loop per row, all appending into
the shared `external_ids_with_colors` list, warnings accumulated in order.
`api i n` is the outcome of the `n`-th call for the `i`-th row. -/
def collectColoredGo (api : Nat → Nat → Except String (Page ColoredElement)) (fuel : Nat) :
    List RequiredRow → Nat → List (String × String) → List String →
      Option (List (String × String) × List String)
  | [], _, acc, warns => some (acc, warns)
  | row :: rest, catIdx, acc, warns =>
    match collectColoredCategory (api catIdx) row.category row.color fuel none 0 acc with
    | none => none
    | some (acc2, newWarns) => collectColoredGo api fuel rest (catIdx + 1) acc2 (warns ++ newWarns)

/-- The highlight-list collection phase of `view_colored_categories`, over
all rows of the dynamic array. -/
def viewColoredCollect (api : Nat → Nat → Except String (Page ColoredElement))
    (rows : List RequiredRow) (fuel : Nat) :
    Option (List (String × String) × List String) :=
  collectColoredGo api fuel rows 0 [] []

theorem pyStrFalsy_true_iff (o : Option String) :
    pyStrFalsy o = true ↔ (o = none ∨ o = some "") := by
  cases o <;> simp [pyStrFalsy]

/-- The loop-exit test, unfolded: it fires exactly when the returned cursor
is absent OR EMPTY, or equals the cursor of the request that fetched the
page, or the page has no results. -/
theorem stopCond_true_iff {α : Type} (c : Option String) (p : Page α) :
    stopCond c p = true ↔
      (p.cursor = none ∨ p.cursor = some "" ∨ p.cursor = c ∨ p.results = []) := by
  rw [stopCond]
  simp only [Bool.or_eq_true, decide_eq_true_eq, List.isEmpty_iff, pyStrFalsy_true_iff]
  tauto

/-- Modelled from the spec: the stop condition exactly as claim C1 states
it — stop when the returned cursor is ABSENT, or equals the immediately
preceding cursor, or the page contained zero results.  (It differs from the
source's `stopCond` on a present-but-empty cursor.) -/
def specClaimedStop {α : Type} (cursor : Option String) (p : Page α) : Bool :=
  decide (p.cursor = none) || decide (p.cursor = cursor) || p.results.isEmpty

/-- A response stream whose first page returns the cursor `""` (present but
empty) with a non-empty page. -/
def emptyCursorStream : Nat → Page Unit := fun _ => ⟨some "", [()]⟩

/-- **C1** — counterexample.  On a page whose returned cursor is the empty
string (present, unequal to the preceding cursor `none`) and whose results
are non-empty, none of the claim's three stop conditions holds, yet the
loop stops: the trace consists of that one iteration only (for any response
to later requests and ample fuel).  Hence the loop does not stop *exactly*
when the claim says. -/
theorem pagination_stops_on_empty_cursor_counterexample :
    specClaimedStop none (emptyCursorStream 0) = false ∧
    fetchLoop emptyCursorStream 10 none 0 = some [(none, emptyCursorStream 0)] := by
  constructor
  · decide
  · decide

/-- **C1** (amended): the pagination loop stops exactly when the returned
cursor is absent OR EMPTY (Python falsiness of `page.get("cursor")`), or
equals the immediately preceding cursor, or the page contained zero
results; in every other case it sets the current cursor to the returned
cursor and issues the next request with that cursor and the fixed
page-size limit 100.  Stated over any terminating run: the exit test is
the stated disjunction; the trace starts from the initial state; every
non-final iteration fails the exit test, hands the returned (non-falsy)
cursor to the next iteration, whose request carries exactly that cursor
and limit 100; and the final iteration passes the exit test. -/
theorem pagination_stop_rule_amended {α : Type} (responses : Nat → Page α)
    (fuel : Nat) (l : List (Option String × Page α))
    (h : fetchLoop responses fuel none 0 = some l) :
    (∀ (c : Option String) (p : Page α), stopCond c p = true ↔
        (p.cursor = none ∨ p.cursor = some "" ∨ p.cursor = c ∨ p.results = [])) ∧
    l.head? = some (none, responses 0) ∧
    List.Chain' (fun e1 e2 =>
      stopCond e1.1 e1.2 = false ∧ e2.1 = e1.2.cursor ∧
      pyStrFalsy e2.1 = false ∧ requestVars e2.1 100 = ⟨e2.1, 100⟩) l ∧
    (∀ e, l.getLast? = some e → stopCond e.1 e.2 = true) := by
  obtain ⟨hhead, hchain, hlast⟩ := fetchLoop_trace_shape responses fuel none 0 l h
  refine ⟨fun c p => stopCond_true_iff c p, hhead, ?_, hlast⟩
  refine hchain.imp ?_
  intro a b hab
  obtain ⟨h1, h2⟩ := hab
  have h3 : pyStrFalsy a.2.cursor = false := by
    rw [stopCond] at h1
    exact (Bool.or_eq_false_iff.mp (Bool.or_eq_false_iff.mp h1).1).1
  have h4 : pyStrFalsy b.1 = false := by rw [h2]; exact h3
  refine ⟨h1, h2, h4, ?_⟩
  rw [requestVars, h4]
  simp

/-- A response stream with one continuing page (cursor "A") followed by a
final page (no cursor). -/
def twoPageStream : Nat → Page Unit :=
  fun n => if n = 0 then ⟨some "A", [()]⟩ else ⟨none, [()]⟩

theorem pagination_stop_rule_amended_witness :
    (∀ (c : Option String) (p : Page Unit), stopCond c p = true ↔
        (p.cursor = none ∨ p.cursor = some "" ∨ p.cursor = c ∨ p.results = [])) ∧
    ([(none, twoPageStream 0), (some "A", twoPageStream 1)]
        : List (Option String × Page Unit)).head? = some (none, twoPageStream 0) ∧
    List.Chain' (fun e1 e2 =>
      stopCond e1.1 e1.2 = false ∧ e2.1 = e1.2.cursor ∧
      pyStrFalsy e2.1 = false ∧ requestVars e2.1 100 = ⟨e2.1, 100⟩)
      [(none, twoPageStream 0), (some "A", twoPageStream 1)] ∧
    (∀ e, ([(none, twoPageStream 0), (some "A", twoPageStream 1)]
        : List (Option String × Page Unit)).getLast? = some e → stopCond e.1 e.2 = true) :=
  pagination_stop_rule_amended twoPageStream 3
    [(none, twoPageStream 0), (some "A", twoPageStream 1)] (by decide)

/-- A response stream cycling between two distinct cursors "A" and "B",
every page non-empty. -/
def alternatingStream : Nat → Page Unit :=
  fun n => ⟨some (if n % 2 = 0 then "A" else "B"), [()]⟩

theorem alternating_not_stop : ∀ n, stopAt alternatingStream n = false := by
  intro n
  rw [stopAt, stopCond]
  have hfalsy : pyStrFalsy (alternatingStream n).cursor = false := by
    show pyStrFalsy (some (if n % 2 = 0 then "A" else "B")) = false
    by_cases h : n % 2 = 0 <;> simp [h, pyStrFalsy]
  have hne : decide ((alternatingStream n).cursor = curAt alternatingStream n) = false := by
    cases n with
    | zero => decide
    | succ m =>
      have hcur : curAt alternatingStream (m + 1) = (alternatingStream m).cursor := by
        show cFrom alternatingStream none 0 (m + 1) = _
        rw [cFrom]
        rw [Nat.zero_add]
      rw [hcur]
      show decide (some (if (m + 1) % 2 = 0 then "A" else "B")
        = some (if m % 2 = 0 then "A" else "B")) = false
      rcases Nat.mod_two_eq_zero_or_one m with h | h
      · have h2 : (m + 1) % 2 = 1 := by omega
        simp [h, h2]
      · have h2 : (m + 1) % 2 = 0 := by omega
        simp [h, h2]
  have hres : (alternatingStream n).results.isEmpty = false := rfl
  rw [hfalsy, hne, hres]
  rfl

/-- **C3** — counterexample.  A response sequence in which cursors repeat
(the cursor "A" is returned at requests 0 and 2) but on which the
pagination loop never terminates: the stall guard only fires when a cursor
equals the *immediately preceding* one, so an A,B,A,B,... cursor cycle with
non-empty pages loops forever. -/
theorem pagination_cycling_cursors_nonterminating :
    (∃ i j, i < j ∧ (alternatingStream i).cursor = (alternatingStream j).cursor) ∧
    ¬ paginationTerminates alternatingStream := by
  refine ⟨⟨0, 2, by omega, rfl⟩, ?_⟩
  rw [paginationTerminates_iff]
  rintro ⟨n, hn⟩
  rw [alternating_not_stop n] at hn
  exact Bool.noConfusion hn

/-- **C3** (amended): the stall guard prevents an infinite loop exactly in
the immediate-repeat case — for every response sequence in which some
returned cursor equals the cursor the loop held when requesting that page
(the immediately preceding cursor), the pagination loop terminates. -/
theorem pagination_terminates_on_immediate_cursor_repeat {α : Type}
    (responses : Nat → Page α)
    (h : ∃ n, (responses n).cursor = curAt responses n) :
    paginationTerminates responses := by
  obtain ⟨n, hn⟩ := h
  rw [paginationTerminates_iff]
  refine ⟨n, ?_⟩
  rw [stopAt, stopCond, hn]
  simp

/-- A response stream that returns the same cursor "A" on every page. -/
def stallingStream : Nat → Page Unit := fun _ => ⟨some "A", [()]⟩

theorem pagination_terminates_on_immediate_cursor_repeat_witness :
    paginationTerminates stallingStream :=
  pagination_terminates_on_immediate_cursor_repeat stallingStream ⟨1, rfl⟩

/-- **C2**: for every master-list category, the reconciliation's `if/elif`
chain assigns exactly the classification given by the specification's
four-row table on the pair `(in_contract, in_model)`, where `in_contract`
is membership of the category among the user-declared required categories
and `in_model` is a positive element count in the model's counts mapping. -/
theorem reconciliation_four_way_table (rows : List RequiredRow)
    (counts : List (String × Nat)) (category_name : String)
    (_h : category_name ∈ all_categories) :
    classifyCategory (required_categories rows) counts category_name =
      specStatusTable ((required_categories rows).contains category_name)
        (decide (dictGet counts category_name 0 > 0)) := by
  rw [classifyCategory]
  cases h1 : (required_categories rows).contains category_name <;>
    cases h2 : decide (dictGet counts category_name 0 > 0) <;>
      simp [h1, h2, specStatusTable]

theorem reconciliation_four_way_table_witness :
    classifyCategory (required_categories [⟨"Walls", "#00ff00"⟩]) [("Walls", 3)] "Walls" =
      specStatusTable ((required_categories [⟨"Walls", "#00ff00"⟩]).contains "Walls")
        (decide (dictGet [("Walls", 3)] "Walls" 0 > 0)) :=
  reconciliation_four_way_table [⟨"Walls", "#00ff00"⟩] [("Walls", 3)] "Walls" (by decide)

theorem classify_eq_of_mem_iff (l l2 : List String) (counts : List (String × Nat))
    (category_name : String) (h : ∀ c, c ∈ l ↔ c ∈ l2) :
    classifyCategory l counts category_name = classifyCategory l2 counts category_name := by
  have hcont : l.contains category_name = l2.contains category_name := by
    by_cases hm : category_name ∈ l2
    · have e1 : l.contains category_name = true := List.elem_iff.mpr ((h category_name).mpr hm)
      have e2 : l2.contains category_name = true := List.elem_iff.mpr hm
      rw [e1, e2]
    · have hm2 : ¬ category_name ∈ l := fun hx => hm ((h category_name).mp hx)
      have e1 : l.contains category_name = false := by
        cases he : l.contains category_name
        · rfl
        · exact absurd (List.elem_iff.mp he) hm2
      have e2 : l2.contains category_name = false := by
        cases he : l2.contains category_name
        · rfl
        · exact absurd (List.elem_iff.mp he) hm
      rw [e1, e2]
  rw [classifyCategory, classifyCategory, hcont]

/-- **C6**: the reconciliation classification is order-independent and
insensitive to duplicate user entries — permuting the declared rows, or
appending a duplicate of an already-declared row, leaves every category's
classification unchanged, because the classification depends on the
declared names only through membership. -/
theorem reconciliation_set_semantics :
    (∀ (rows rows2 : List RequiredRow) (counts : List (String × Nat))
        (category_name : String),
      List.Perm (required_categories rows) (required_categories rows2) →
        classifyCategory (required_categories rows) counts category_name =
          classifyCategory (required_categories rows2) counts category_name) ∧
    (∀ (rows : List RequiredRow) (r : RequiredRow) (counts : List (String × Nat))
        (category_name : String),
      r ∈ rows →
        classifyCategory (required_categories (rows ++ [r])) counts category_name =
          classifyCategory (required_categories rows) counts category_name) := by
  constructor
  · intro rows rows2 counts category_name hperm
    exact classify_eq_of_mem_iff _ _ counts category_name (fun c => hperm.mem_iff)
  · intro rows r counts category_name hmem
    refine classify_eq_of_mem_iff _ _ counts category_name (fun c => ?_)
    rw [required_categories, required_categories, List.map_append]
    simp only [List.map_cons, List.map_nil, List.mem_append, List.mem_singleton]
    constructor
    · rintro (hc | hc)
      · exact hc
      · rw [hc]
        exact List.mem_map_of_mem (fun r => r.category) hmem
    · exact Or.inl

theorem reconciliation_set_semantics_witness :
    classifyCategory (required_categories [⟨"Walls", "#00ff00"⟩, ⟨"Doors", "#ff0000"⟩])
        [("Walls", 2)] "Walls" =
      classifyCategory (required_categories [⟨"Doors", "#ff0000"⟩, ⟨"Walls", "#00ff00"⟩])
        [("Walls", 2)] "Walls" ∧
    classifyCategory
        (required_categories ([⟨"Walls", "#00ff00"⟩, ⟨"Doors", "#ff0000"⟩] ++ [⟨"Walls", "#00ff00"⟩]))
        [("Walls", 2)] "Walls" =
      classifyCategory (required_categories [⟨"Walls", "#00ff00"⟩, ⟨"Doors", "#ff0000"⟩])
        [("Walls", 2)] "Walls" :=
  ⟨reconciliation_set_semantics.1 [⟨"Walls", "#00ff00"⟩, ⟨"Doors", "#ff0000"⟩]
      [⟨"Doors", "#ff0000"⟩, ⟨"Walls", "#00ff00"⟩] [("Walls", 2)] "Walls" (by decide),
   reconciliation_set_semantics.2 [⟨"Walls", "#00ff00"⟩, ⟨"Doors", "#ff0000"⟩]
      ⟨"Walls", "#00ff00"⟩ [("Walls", 2)] "Walls" (by decide)⟩

/-- **C4**: `execute_graphql` raises (`.error`) whenever the HTTP status is
not 200 or the body's GraphQL-level `errors` field is present and
non-empty, and otherwise returns the body's `data` field (with the `{}`
default); the two cases are exhaustive, so it never returns normally in an
error case. -/
theorem execute_graphql_error_characterization {α : Type}
    (resp : HttpResponse α) (emptyData : α) :
    ((resp.status_code ≠ 200 ∨ ∃ l, resp.errors = some l ∧ l ≠ []) →
      ∃ msg, execute_graphql resp emptyData = Except.error msg) ∧
    ((resp.status_code = 200 ∧ (∀ l, resp.errors = some l → l = [])) →
      execute_graphql resp emptyData = Except.ok (resp.data.getD emptyData)) := by
  constructor
  · rintro (hs | ⟨l, hl, hne⟩)
    · exact ⟨"HTTP " ++ toString resp.status_code ++ ": " ++ resp.text,
        by rw [execute_graphql]; simp [hs]⟩
    · by_cases hs : resp.status_code = 200
      · refine ⟨"GraphQL errors: " ++ String.intercalate "; " (resp.errors.getD []), ?_⟩
        rw [execute_graphql]
        have htr : pyErrorsTruthy resp.errors = true := by
          rw [hl, pyErrorsTruthy]
          simpa using hne
        simp [hs, htr]
      · exact ⟨"HTTP " ++ toString resp.status_code ++ ": " ++ resp.text,
          by rw [execute_graphql]; simp [hs]⟩
  · rintro ⟨hs, hl⟩
    rw [execute_graphql]
    have htr : pyErrorsTruthy resp.errors = false := by
      cases he : resp.errors with
      | none => rfl
      | some l =>
        rw [pyErrorsTruthy]
        simp [hl l he]
    simp [hs, htr]

theorem execute_graphql_error_characterization_witness :
    (∃ msg, execute_graphql (⟨500, "boom", none, none⟩ : HttpResponse Nat) 0
      = Except.error msg) ∧
    execute_graphql (⟨200, "", none, some 7⟩ : HttpResponse Nat) 0 = Except.ok 7 :=
  ⟨(execute_graphql_error_characterization (⟨500, "boom", none, none⟩ : HttpResponse Nat) 0).1
      (Or.inl (by decide)),
   (execute_graphql_error_characterization (⟨200, "", none, some 7⟩ : HttpResponse Nat) 0).2
      ⟨rfl, fun l hl => Option.noConfusion hl⟩⟩

/-- **C7**: the views' per-invocation counts mapping is the single source of
counts — the summary table is a function of the single aggregate response
only through `model_category_counts`; every entry of the response with a
non-empty `value` contributes its name as a key of the mapping; and a name
reported by exactly one entry is mapped to exactly that entry's count. -/
theorem model_counts_single_source :
    (∀ (rows : List RequiredRow) (resp resp2 : AggResponse),
      model_category_counts resp = model_category_counts resp2 →
        categorySummaryTable rows resp = categorySummaryTable rows resp2) ∧
    (∀ (resp : AggResponse) (v : AggValue), v ∈ flatEntries resp →
      v.value.getD "" ≠ "" →
        hasKey (model_category_counts resp) (v.value.getD "") = true) ∧
    (∀ (resp : AggResponse) (name : String) (v : AggValue), name ≠ "" →
      (flatEntries resp).filter (fun u => u.value.getD "" == name) = [v] →
        dictGet (model_category_counts resp) name 0 = v.count.getD 0) := by
  refine ⟨?_, ?_, ?_⟩
  · intro rows resp resp2 hcounts
    rw [categorySummaryTable, categorySummaryTable, hcounts]
  · intro resp v hv hne
    rw [model_category_counts_eq_flat]
    exact (hasKey_foldl_countStep _ (flatEntries resp) []).mpr (Or.inr ⟨hne, v, hv, rfl⟩)
  · intro resp name v hname hfil
    rw [model_category_counts_eq_flat, dictGet_foldl_countStep name hname, hfil]
    rfl

/-- A one-entry aggregate value used by the C7 witness. -/
def aggW : AggValue := ⟨some "Walls", some 3⟩

/-- A one-entry aggregate response used by the C7 witness. -/
def respW : AggResponse := ⟨some [⟨some [aggW]⟩]⟩

theorem model_counts_single_source_witness :
    categorySummaryTable [] respW = categorySummaryTable [] respW ∧
    hasKey (model_category_counts respW) (aggW.value.getD "") = true ∧
    dictGet (model_category_counts respW) "Walls" 0 = aggW.count.getD 0 :=
  ⟨model_counts_single_source.1 [] respW respW rfl,
   model_counts_single_source.2.1 respW aggW (by decide) (by decide),
   model_counts_single_source.2.2 respW "Walls" aggW (by decide) (by decide)⟩

/-- **C8**: the counts mapping never has the empty string as a key (entries
with an empty or absent `value` are skipped); for a non-empty name, the
mapped count is that of the LAST response entry carrying that name (later
occurrences overwrite earlier ones), absent names defaulting to 0 on
lookup; and a non-empty name is a key exactly when some entry carries it. -/
theorem model_counts_empty_excluded_last_wins (resp : AggResponse) (name : String)
    (hname : name ≠ "") :
    hasKey (model_category_counts resp) "" = false ∧
    dictGet (model_category_counts resp) name 0 =
      ((((flatEntries resp).filter (fun v => v.value.getD "" == name)).getLast?).map
        (fun v => v.count.getD 0)).getD 0 ∧
    (hasKey (model_category_counts resp) name = true ↔
      ∃ v ∈ flatEntries resp, v.value.getD "" = name) := by
  refine ⟨?_, ?_, ?_⟩
  · cases hk : hasKey (model_category_counts resp) ""
    · rfl
    · exfalso
      rw [model_category_counts_eq_flat] at hk
      rcases (hasKey_foldl_countStep "" (flatEntries resp) []).mp hk with h0 | ⟨h0, _⟩
      · exact Bool.noConfusion h0
      · exact h0 rfl
  · rw [model_category_counts_eq_flat, dictGet_foldl_countStep name hname]
    rfl
  · rw [model_category_counts_eq_flat, hasKey_foldl_countStep name (flatEntries resp) []]
    constructor
    · rintro (h0 | ⟨_, v, hv, hveq⟩)
      · exact Bool.noConfusion h0
      · exact ⟨v, hv, hveq⟩
    · rintro ⟨v, hv, hveq⟩
      exact Or.inr ⟨hname, v, hv, hveq⟩

/-- An aggregate response with a duplicate name, an empty-valued entry and
an absent-valued entry, used by the C8 witness. -/
def respC8 : AggResponse :=
  ⟨some [⟨some [⟨some "Walls", some 3⟩, ⟨some "", some 9⟩, ⟨none, some 7⟩]⟩,
         ⟨some [⟨some "Walls", some 5⟩]⟩]⟩

theorem model_counts_empty_excluded_last_wins_witness :
    hasKey (model_category_counts respC8) "" = false ∧
    dictGet (model_category_counts respC8) "Walls" 0 =
      ((((flatEntries respC8).filter (fun v => v.value.getD "" == "Walls")).getLast?).map
        (fun v => v.count.getD 0)).getD 0 ∧
    (hasKey (model_category_counts respC8) "Walls" = true ↔
      ∃ v ∈ flatEntries respC8, v.value.getD "" = "Walls") :=
  model_counts_empty_excluded_last_wins respC8 "Walls" (by decide)

/-- Statement-side helper: the highlight entry (if any) one element
contributes. -/
def pickColored (color_hex : String) (e : ColoredElement) : Option (String × String) :=
  match (e.alternativeIdentifiers.getD ⟨none⟩).externalElementId with
  | some id => if id ≠ "" then some (id, color_hex) else none
  | none => none

theorem pickColored_eq_some_iff (color_hex : String) (e : ColoredElement)
    (id0 col0 : String) :
    pickColored color_hex e = some (id0, col0) ↔
      ((e.alternativeIdentifiers.getD ⟨none⟩).externalElementId = some id0 ∧
        id0 ≠ "" ∧ col0 = color_hex) := by
  rw [pickColored]
  cases hext : (e.alternativeIdentifiers.getD ⟨none⟩).externalElementId with
  | none =>
    show (none : Option (String × String)) = some (id0, col0) ↔
      ((none : Option String) = some id0 ∧ id0 ≠ "" ∧ col0 = color_hex)
    simp
  | some id =>
    show (if id ≠ "" then some (id, color_hex) else none) = some (id0, col0) ↔
      (some id = some id0 ∧ id0 ≠ "" ∧ col0 = color_hex)
    by_cases hid : id ≠ ""
    · rw [if_pos hid]
      constructor
      · intro hp
        have h2 := Option.some.inj hp
        have h3 : id = id0 := congrArg Prod.fst h2
        have h4 : color_hex = col0 := congrArg Prod.snd h2
        exact ⟨by rw [h3], by rw [← h3]; exact hid, h4.symm⟩
      · rintro ⟨h1, _, h3⟩
        have h4 : id = id0 := Option.some.inj h1
        rw [h4, h3]
    · rw [if_neg hid]
      constructor
      · intro hp
        exact absurd hp (by simp)
      · rintro ⟨h1, h2, _⟩
        have h4 : id = id0 := Option.some.inj h1
        have h5 : id = "" := not_not.mp hid
        exact absurd (by rw [← h4]; exact h5) h2

theorem colored_step_eq_pick (color_hex : String) (acc : List (String × String))
    (e : ColoredElement) :
    (match (e.alternativeIdentifiers.getD ⟨none⟩).externalElementId with
      | some id => if id ≠ "" then acc ++ [(id, color_hex)] else acc
      | none => acc) =
      acc ++ (pickColored color_hex e).toList := by
  rw [pickColored]
  cases hext : (e.alternativeIdentifiers.getD ⟨none⟩).externalElementId with
  | none => simp
  | some id =>
    show (if id ≠ "" then acc ++ [(id, color_hex)] else acc) =
      acc ++ (if id ≠ "" then some (id, color_hex) else none).toList
    by_cases hid : id ≠ ""
    · rw [if_pos hid, if_pos hid]
      rfl
    · rw [if_neg hid, if_neg hid]
      simp

theorem processColoredPage_eq_filterMap (color_hex : String) (results : List ColoredElement) :
    processColoredPage color_hex results = results.filterMap (pickColored color_hex) := by
  have key : ∀ (l : List ColoredElement) (acc : List (String × String)),
      l.foldl (fun acc e =>
        match (e.alternativeIdentifiers.getD ⟨none⟩).externalElementId with
        | some id => if id ≠ "" then acc ++ [(id, color_hex)] else acc
        | none => acc) acc = acc ++ l.filterMap (pickColored color_hex) := by
    intro l
    induction l with
    | nil => intro acc; simp
    | cons e t ih =>
      intro acc
      simp only [List.foldl_cons, List.filterMap_cons]
      rw [colored_step_eq_pick, ih]
      cases hpick : pickColored color_hex e with
      | none => simp
      | some b => simp [List.append_assoc]
  rw [processColoredPage, key results []]
  rfl

theorem collectColoredCategory_error (api : Nat → Except String (Page ColoredElement))
    (category_name color_hex : String) (fuel : Nat) (cursor : Option String) (idx : Nat)
    (acc : List (String × String)) (msg : String) (h : api idx = Except.error msg) :
    collectColoredCategory api category_name color_hex (fuel + 1) cursor idx acc =
      some (acc, [categoryWarning category_name msg]) := by
  simp only [collectColoredCategory]
  rw [h]

/-- **C9**: in the colored category view, (1) an entry joins the highlight
list exactly for a result element with a present non-empty
`externalElementId`, pairing that id with the category row's color; (2) if
a category's request raises, the loop returns the entries collected so far
unchanged together with the warning for that category — its pagination is
abandoned without an exception escaping; (3) a category whose first
request raises contributes only its warning, and the view goes on to
process the remaining categories with the accumulator intact. -/
theorem colored_view_highlight_and_error_handling :
    (∀ (color_hex : String) (results : List ColoredElement) (entry : String × String),
      entry ∈ processColoredPage color_hex results ↔
        ∃ e ∈ results,
          (e.alternativeIdentifiers.getD ⟨none⟩).externalElementId = some entry.1 ∧
          entry.1 ≠ "" ∧ entry.2 = color_hex) ∧
    (∀ (api : Nat → Except String (Page ColoredElement)) (category_name color_hex : String)
        (fuel : Nat) (cursor : Option String) (idx : Nat) (acc : List (String × String))
        (msg : String),
      api idx = Except.error msg →
        collectColoredCategory api category_name color_hex (fuel + 1) cursor idx acc =
          some (acc, [categoryWarning category_name msg])) ∧
    (∀ (api : Nat → Nat → Except String (Page ColoredElement)) (fuel : Nat)
        (row : RequiredRow) (rest : List RequiredRow) (catIdx : Nat)
        (acc : List (String × String)) (warns : List String) (msg : String),
      api catIdx 0 = Except.error msg →
        collectColoredGo api (fuel + 1) (row :: rest) catIdx acc warns =
          collectColoredGo api (fuel + 1) rest (catIdx + 1) acc
            (warns ++ [categoryWarning row.category msg])) := by
  refine ⟨?_, ?_, ?_⟩
  · intro color_hex results entry
    obtain ⟨id0, col0⟩ := entry
    rw [processColoredPage_eq_filterMap, List.mem_filterMap]
    constructor
    · rintro ⟨e, he, hp⟩
      exact ⟨e, he, (pickColored_eq_some_iff color_hex e id0 col0).mp hp⟩
    · rintro ⟨e, he, hprops⟩
      exact ⟨e, he, (pickColored_eq_some_iff color_hex e id0 col0).mpr hprops⟩
  · intro api category_name color_hex fuel cursor idx acc msg herr
    exact collectColoredCategory_error api category_name color_hex fuel cursor idx acc msg herr
  · intro api fuel row rest catIdx acc warns msg herr
    simp only [collectColoredGo]
    rw [collectColoredCategory_error (api catIdx) row.category row.color fuel none 0 acc msg herr]

/-- One colored element with a non-empty external id, for the C9 witness. -/
def coloredElemW : ColoredElement := ⟨some ⟨some "ext1"⟩⟩

/-- An API that raises on every request, for the C9 witness. -/
def failingApi : Nat → Except String (Page ColoredElement) :=
  fun _ => Except.error "boom"

/-- A per-category API that raises on every request, for the C9 witness. -/
def failingApi2 : Nat → Nat → Except String (Page ColoredElement) :=
  fun _ _ => Except.error "boom"

theorem colored_view_highlight_and_error_handling_witness :
    (("ext1", "#ff0000") ∈ processColoredPage "#ff0000" [coloredElemW] ↔
      ∃ e ∈ [coloredElemW],
        (e.alternativeIdentifiers.getD ⟨none⟩).externalElementId
            = some ("ext1", "#ff0000").1 ∧
        ("ext1", "#ff0000").1 ≠ "" ∧ ("ext1", "#ff0000").2 = "#ff0000") ∧
    collectColoredCategory failingApi "Walls" "#00ff00" 1 none 0 [("a", "#111111")] =
      some ([("a", "#111111")], [categoryWarning "Walls" "boom"]) ∧
    collectColoredGo failingApi2 1 [⟨"Walls", "#00ff00"⟩] 0 [("a", "#111111")] [] =
      collectColoredGo failingApi2 1 [] 1 [("a", "#111111")]
        ([] ++ [categoryWarning "Walls" "boom"]) :=
  ⟨colored_view_highlight_and_error_handling.1 "#ff0000" [coloredElemW] ("ext1", "#ff0000"),
   colored_view_highlight_and_error_handling.2.1 failingApi "Walls" "#00ff00" 0 none 0
     [("a", "#111111")] "boom" rfl,
   colored_view_highlight_and_error_handling.2.2 failingApi2 0 ⟨"Walls", "#00ff00"⟩ [] 0
     [("a", "#111111")] [] "boom" rfl⟩

/-- **C10** — counterexample.  An element whose `name` field is present but
empty: the produced record keeps the empty string as the element name
rather than the claimed "Unknown" default, because the source applies the
default only when the key is absent (`element.get("name", "Unknown")`)
with no emptiness check. -/
theorem element_name_empty_not_defaulted :
    (⟨some "", none⟩ : Element).name = some "" ∧
    (processElement "Walls" ⟨some "", none⟩).element_name = "" ∧
    (processElement "Walls" ⟨some "", none⟩).element_name ≠ "Unknown" :=
  ⟨rfl, rfl, by decide⟩

/-- **C10** (amended): for every fetched element, the family and type names
are taken from the last property named "Family Name" / "Type Name",
defaulting to "Unknown" when no such property exists or its value is
empty; the element name is the `name` field, defaulting to "Unknown" ONLY
when the field is absent — a present-but-empty name is kept as the empty
string (`Option.getD` with no emptiness check). -/
theorem family_instance_record_fields (category : String) (e : Element) :
    (processElement category e).category = category ∧
    (processElement category e).element_name = e.name.getD "Unknown" ∧
    (processElement category e).family_name =
      lastPropValueOr "Family Name" (elementProps e) "Unknown" ∧
    (processElement category e).type_name =
      lastPropValueOr "Type Name" (elementProps e) "Unknown" := by
  refine ⟨rfl, rfl, ?_, ?_⟩
  · show ((elementProps e).foldl propStep ("Unknown", "Unknown")).1 = _
    rw [foldl_propStep_eq]
  · show ((elementProps e).foldl propStep ("Unknown", "Unknown")).2 = _
    rw [foldl_propStep_eq]

/-- The colored-category pagination loop on an error-free response stream:
the accumulated highlight list of a terminating run is the concatenation,
in trace order, of the processed (externalElementId-filtered) results of
its fetched pages, with no warnings. -/
theorem collectColoredCategory_eq_fetchLoop (responses : Nat → Page ColoredElement)
    (category_name color_hex : String) :
    ∀ (fuel : Nat) (cursor : Option String) (idx : Nat) (acc : List (String × String)),
      collectColoredCategory (fun n => Except.ok (responses n)) category_name color_hex
          fuel cursor idx acc =
        (fetchLoop responses fuel cursor idx).map
          (fun l =>
            (acc ++ (l.map (fun cp => processColoredPage color_hex cp.2.results)).flatten,
             ([] : List String))) := by
  intro fuel
  induction fuel with
  | zero => intro cursor idx acc; rfl
  | succ fuel ih =>
    intro cursor idx acc
    show (if stopCond cursor (responses idx)
        then some (acc ++ processColoredPage color_hex (responses idx).results,
          ([] : List String))
        else collectColoredCategory (fun n => Except.ok (responses n)) category_name color_hex
          fuel (responses idx).cursor (idx + 1)
          (acc ++ processColoredPage color_hex (responses idx).results)) = _
    by_cases hstop : stopCond cursor (responses idx) = true
    · rw [if_pos hstop, fetchLoop]
      simp [hstop]
    · have hstop2 : stopCond cursor (responses idx) = false := by simpa using hstop
      rw [if_neg (by simp [hstop2]), ih, fetchLoop]
      simp only [hstop2, Bool.false_eq_true, if_false]
      cases h : fetchLoop responses fuel (responses idx).cursor (idx + 1) with
      | none => rfl
      | some l => simp [List.append_assoc]

/-- A colored element with no `alternativeIdentifiers` block, hence no
external id. -/
def noIdElem : ColoredElement := ⟨none⟩

/-- An error-free API whose every page is final (no cursor) and contains
exactly the element `noIdElem`. -/
def noIdApi : Nat → Except String (Page ColoredElement) :=
  fun _ => Except.ok ⟨none, [noIdElem]⟩

/-- **C5** — counterexample.  In the colored-categories loop
(`view_colored_categories` lines 514-538), an element appearing in a
fetched page is NOT included in the aggregated list when it lacks a
non-empty `externalElementId`: on a successful run whose single fetched
page contains exactly `noIdElem`, the aggregated highlight list is empty,
so not every element of a fetched page is collected. -/
theorem colored_aggregation_drops_elements_counterexample :
    noIdApi 0 = Except.ok ⟨none, [noIdElem]⟩ ∧
    noIdElem ∈ (⟨none, [noIdElem]⟩ : Page ColoredElement).results ∧
    processColoredPage "#00ff00" [noIdElem] = [] ∧
    collectColoredCategory noIdApi "Walls" "#00ff00" 5 none 0 [] = some ([], []) := by
  refine ⟨rfl, ?_, rfl, ?_⟩
  · exact List.mem_singleton.mpr rfl
  · decide

/-- **C5** (amended): each pagination-and-aggregation loop collects, exactly
once and in page order, the rows its body derives from the fetched pages —
including the final page, whose rows are appended before the exit test
runs.  In `view_family_instances` every element of every fetched page
contributes its record: a terminating per-category run equals the
concatenation, in trace order, of the processed results of its fetched
pages, and the view's list is the concatenation of this over the selected
categories.  In `view_colored_categories` a fetched element contributes an
entry only if it has a present non-empty `externalElementId` (the
per-category run on an error-free stream equals the concatenation of the
filtered pages; the filter is made explicit by the `filterMap` equation). -/
theorem aggregation_collects_all_pages :
    (∀ (responses : Nat → Page Element) (category : String) (fuel : Nat)
        (cursor : Option String) (idx : Nat) (acc : List Record),
      collectInstances responses category fuel cursor idx acc =
        (fetchLoop responses fuel cursor idx).map
          (fun l => acc ++ (l.map (pageRecords category)).flatten)) ∧
    (∀ (api : Nat → Nat → Page Element) (fuel : Nat) (cats : List String)
        (catIdx : Nat) (acc : List Record),
      collectAllInstances api fuel cats catIdx acc =
        (categoryTraces api fuel cats catIdx).map
          (fun ts => acc ++ (ts.map (fun ct => (ct.2.map (pageRecords ct.1)).flatten)).flatten)) ∧
    (∀ (responses : Nat → Page ColoredElement) (category_name color_hex : String)
        (fuel : Nat) (cursor : Option String) (idx : Nat) (acc : List (String × String)),
      collectColoredCategory (fun n => Except.ok (responses n)) category_name color_hex
          fuel cursor idx acc =
        (fetchLoop responses fuel cursor idx).map
          (fun l =>
            (acc ++ (l.map (fun cp => processColoredPage color_hex cp.2.results)).flatten,
             ([] : List String)))) ∧
    (∀ (color_hex : String) (results : List ColoredElement),
      processColoredPage color_hex results = results.filterMap (pickColored color_hex)) :=
  ⟨fun responses category fuel cursor idx acc =>
      collectInstances_eq_fetchLoop responses category fuel cursor idx acc,
   fun api fuel cats catIdx acc => collectAllInstances_eq_traces api fuel cats catIdx acc,
   fun responses category_name color_hex fuel cursor idx acc =>
      collectColoredCategory_eq_fetchLoop responses category_name color_hex fuel cursor idx acc,
   fun color_hex results => processColoredPage_eq_filterMap color_hex results⟩
